import Mathlib

/-!
Shallow embedding of the batman-adv distributed ARP table core
(src/distributed-arp-table.c): the local entry cache (hash table with
reference-counted entries), the purge sweep, the DHT candidate selection
over a virtual address ring, and the dissemination step.

Machine integers are modelled as Nat with explicit reduction modulo 2^32
where the C performs 32-bit unsigned arithmetic.  Pointer-typed results
become Option, fallible paths are explicit, and the one undefined-behaviour
path in candidate selection (reading through a NULL max_orig_node pointer)
is modelled as a distinguished crash outcome.
-/

/-- Width of one 32-bit unsigned machine word. -/
def U32MOD : Nat := 2 ^ 32

/-- Number of bytes of a hardware (MAC) address, from linux/if_ether.h. -/
def ETH_ALEN : Nat := 6

/-- Modelled from the spec: batadv_dat_addr_t (declared in types.h, which is
not part of src/) is a full 32-bit unsigned quantity (spec section 6: ring
width = full 32-bit unsigned space), so BATADV_DAT_ADDR_MAX, the all-ones
value of that type, is 2^32 - 1. -/
def BATADV_DAT_ADDR_MAX : Nat := 2 ^ 32 - 1

/-- Modelled from the spec: BATADV_DAT_CANDIDATES_NUM (declared outside
src/) is the candidate count K, fixed to 3 (spec section 4.3). -/
def BATADV_DAT_CANDIDATES_NUM : Nat := 3

/-- One step of the Jenkins one-at-a-time mixing loop of batadv_hash_dat
(lines 157-161): hash += key[i]; hash += hash << 10; hash ^= hash >> 6,
all in 32-bit unsigned arithmetic. -/
def mix32step (hash b : Nat) : Nat :=
  let h1 := (hash + b) % U32MOD
  let h2 := (h1 + h1 * 2 ^ 10) % U32MOD
  h2 ^^^ h2 / 2 ^ 6

/-- The full Jenkins mix of batadv_hash_dat before the final reduction
(lines 153-165): the per-byte loop over the 4 key bytes followed by the
final avalanche. -/
def batadv_hash_mix (key : List Nat) : Nat :=
  let h := (key.take 4).foldl mix32step 0
  let h := (h + h * 2 ^ 3) % U32MOD
  let h := h ^^^ h / 2 ^ 11
  (h + h * 2 ^ 15) % U32MOD

/-- batadv_hash_dat (lines 151-168): Jenkins one-at-a-time hash of the 4 key
bytes, reduced modulo the size argument. -/
def batadv_hash_dat (key : List Nat) (size : Nat) : Nat :=
  batadv_hash_mix key % size

/-- Modelled from the spec: batadv_compare_eth (declared in main.h, which is
not part of src/) is an ETH_ALEN-byte memcmp equality test returning nonzero
exactly when the two hardware addresses are equal.  This matches its use at
line 224, which the spec describes as overwrite the stored hardware address
only if different. -/
def batadv_compare_eth (a b : List Nat) : Nat :=
  if a.take ETH_ALEN = b.take ETH_ALEN then 1 else 0

/-- An originator (mesh node) as far as this core reads it: its hardware
address and its ring position dat_addr. -/
structure OrigNode where
  orig : List Nat
  dat_addr : Nat
deriving DecidableEq

/-- One slot of the candidate array: BATADV_DAT_CANDIDATE_NOT_FOUND or
BATADV_DAT_CANDIDATE_ORIG with the selected node. -/
inductive Candidate where
  | notFound
  | found (n : OrigNode)
deriving DecidableEq

/-- The ring distance computed at lines 343-344:
tmp_max = BATADV_DAT_ADDR_MAX - orig_node->dat_addr + ip_key, in 32-bit
unsigned arithmetic (both operands are below 2^32, so the C expression
wraps modulo 2^32). -/
def batadv_dat_distance (dat_addr ip_key : Nat) : Nat :=
  (BATADV_DAT_ADDR_MAX - dat_addr + ip_key) % U32MOD

/-- The pointer comparison res[j].orig_node == candidate in the
already-selected scan (lines 283-285): a NOT_FOUND slot holds no node and
never matches. -/
def candMatches (c : Candidate) (n : OrigNode) : Bool :=
  match c with
  | .notFound => false
  | .found m => m == n

/-- batadv_is_orig_node_eligible (lines 272-307).  res is the filled prefix
of the candidate array (length select).  Returns none when the C code would
dereference a NULL max_orig_node pointer (the tie-break comparison at lines
300-301 reads max_orig_node->orig while no round maximum has been recorded);
otherwise some of its boolean result. -/
def batadv_is_orig_node_eligible (res : List Candidate)
    (tmp_max max last_max : Nat) (candidate : OrigNode)
    (max_orig_node : Option OrigNode) : Option Bool :=
  if res.any (fun c => candMatches c candidate) then some false
  else if tmp_max > last_max then some false
  else if tmp_max < max then some false
  else if tmp_max = max then
    match max_orig_node with
    | none => none
    | some m =>
      if batadv_compare_eth candidate.orig m.orig > 0 then some false
      else some true
  else some true

/-- The running state of one selection round inside
batadv_choose_next_candidate: the current round maximum distance and the
node that realised it (NULL before any node is accepted). -/
structure RoundState where
  max : Nat
  max_orig_node : Option OrigNode
deriving DecidableEq

/-- One iteration of the scan loop of batadv_choose_next_candidate (lines
341-359): compute the candidate distance, ask eligibility, and on success
record the node as the new round maximum.  Registry nodes are alive, so
atomic_inc_not_zero on an originator succeeds.  none propagates the
NULL-dereference crash from the eligibility check. -/
def chooseStep (cands : List Candidate) (last_max ip_key : Nat)
    (st : RoundState) (orig_node : OrigNode) : Option RoundState :=
  let tmp_max := batadv_dat_distance orig_node.dat_addr ip_key
  match batadv_is_orig_node_eligible cands tmp_max st.max last_max orig_node
      st.max_orig_node with
  | none => none
  | some false => some st
  | some true => some { max := tmp_max, max_orig_node := some orig_node }

/-- batadv_choose_next_candidate (lines 317-371): scan the whole originator
registry with chooseStep starting from max = 0, max_orig_node = NULL; the
slot becomes Found of the final maximum node if one was recorded, NOT_FOUND
otherwise, and last_max is unconditionally overwritten with the final round
maximum (line 370). -/
def batadv_choose_next_candidate (registry : List OrigNode)
    (cands : List Candidate) (last_max ip_key : Nat) :
    Option (Candidate × Nat) :=
  match registry.foldlM (chooseStep cands last_max ip_key)
      { max := 0, max_orig_node := none } with
  | none => none
  | some st =>
    match st.max_orig_node with
    | none => some (Candidate.notFound, st.max)
    | some m => some (Candidate.found m, st.max)

/-- The K-round selection loop of batadv_dat_select_candidates (lines
406-408), threading last_max and growing the candidate array. -/
def selectLoop (registry : List OrigNode) (ip_key : Nat) :
    Nat → List Candidate → Nat → Option (List Candidate × Nat)
  | 0, acc, last_max => some (acc, last_max)
  | n + 1, acc, last_max =>
    match batadv_choose_next_candidate registry acc last_max ip_key with
    | none => none
    | some (c, new_last) =>
      selectLoop registry ip_key n (acc ++ [c]) new_last

/-- Outcome of batadv_dat_select_candidates: NULL (no originator registry or
candidate-array allocation failure), a crash (NULL dereference inside the
eligibility check), or the completed candidate array. -/
inductive SelectResult where
  | null
  | crash
  | ok (cands : List Candidate)
deriving DecidableEq

/-- batadv_dat_select_candidates (lines 385-411): returns NULL when
bat_priv->orig_hash is NULL or kmalloc fails; otherwise computes
ip_key = batadv_hash_dat(&ip_dst, BATADV_DAT_ADDR_MAX) (lines 399-400) and
runs BATADV_DAT_CANDIDATES_NUM rounds with last_max initialised to
BATADV_DAT_ADDR_MAX (line 389). -/
def batadv_dat_select_candidates (orig_hash : Option (List OrigNode))
    (alloc_ok : Bool) (ip_dst : List Nat) : SelectResult :=
  match orig_hash with
  | none => SelectResult.null
  | some registry =>
    if alloc_ok then
      let ip_key := batadv_hash_dat ip_dst BATADV_DAT_ADDR_MAX
      match selectLoop registry ip_key BATADV_DAT_CANDIDATES_NUM []
          BATADV_DAT_ADDR_MAX with
      | none => SelectResult.crash
      | some (cands, _) => SelectResult.ok cands
    else SelectResult.null

/-- One cached IP-to-hardware-address mapping, struct batadv_dat_entry:
the 32-bit address (held as the number its 4 key bytes denote), the
hardware address bytes, the last_update timestamp, and the atomic
reference counter. -/
structure DatEntry where
  ip : Nat
  mac_addr : List Nat
  last_update : Nat
  refcount : Nat
deriving DecidableEq

/-- The 4 memory bytes of a 32-bit address value, as hashed by
batadv_hash_dat(&ip, size). -/
def ipBytes (ip : Nat) : List Nat :=
  [ip % 2 ^ 8, ip / 2 ^ 8 % 2 ^ 8, ip / 2 ^ 16 % 2 ^ 8, ip / 2 ^ 24 % 2 ^ 8]

/-- batadv_compare_dat (lines 136-142): memcmp equality of the 4 address
bytes, i.e. equality of the two 32-bit address values. -/
def batadv_compare_dat (ip1 ip2 : Nat) : Bool :=
  ipBytes ip1 = ipBytes ip2

/-- The fixed-size bucketed DAT hash table: bucket count and buckets. -/
structure BatadvHashtable where
  size : Nat
  table : List (List DatEntry)
deriving DecidableEq

/-- Bucket index for an address: batadv_hash_dat(&ip, hash->size)
(line 190). -/
def datIndex (h : BatadvHashtable) (ip : Nat) : Nat :=
  batadv_hash_dat (ipBytes ip) h.size

/-- The bucket an address lives in. -/
def getBucket (h : BatadvHashtable) (ip : Nat) : List DatEntry :=
  h.table.getD (datIndex h ip) []

/-- Replace the bucket an address lives in. -/
def setBucket (h : BatadvHashtable) (ip : Nat) (b : List DatEntry) :
    BatadvHashtable :=
  { h with table := h.table.set (datIndex h ip) b }

/-- All entries of the table, in bucket order. -/
def datEntriesOf (h : BatadvHashtable) : List DatEntry :=
  h.table.flatten

/-- The scan condition of the lookup loop (lines 194-199): the entry
matches the searched address and atomic_inc_not_zero on its reference
counter succeeds (the counter has not already reached zero). -/
def entryLive (ip : Nat) (e : DatEntry) : Bool :=
  e.ip == ip && e.refcount != 0

/-- The bucket traversal of batadv_dat_entry_hash_find (lines 193-204):
skip entries whose address differs and entries whose reference counter is
already zero; on the first live match, acquire a reference (increment the
counter) and return the entry. -/
def bucketAcquire : List DatEntry → Nat → Option DatEntry × List DatEntry
  | [], _ => (none, [])
  | e :: rest, ip =>
    if entryLive ip e then
      (some { e with refcount := e.refcount + 1 },
       { e with refcount := e.refcount + 1 } :: rest)
    else
      ((bucketAcquire rest ip).1, e :: (bucketAcquire rest ip).2)

/-- batadv_dat_entry_hash_find (lines 178-207): NULL table means not found;
otherwise scan the bucket of ip with bucketAcquire.  Returns the acquired
entry (if any) together with the updated table. -/
def batadv_dat_entry_hash_find (hq : Option BatadvHashtable) (ip : Nat) :
    Option DatEntry × Option BatadvHashtable :=
  match hq with
  | none => (none, none)
  | some h =>
    ((bucketAcquire (getBucket h ip) ip).1,
     some (setBucket h ip (bucketAcquire (getBucket h ip) ip).2))

/-- The update path of batadv_dat_entry_add (lines 223-231) as its net
effect on the bucket: the entry the preceding hash_find acquired (the first
live match) gets its hardware address overwritten when batadv_compare_eth
says it differs and its last_update refreshed; the reference taken by
hash_find is dropped again by the free_ref at out (line 257), so the
reference counter is unchanged. -/
def bucketUpdate : List DatEntry → Nat → List Nat → Nat → List DatEntry
  | [], _, _, _ => []
  | e :: rest, ip, mac, now =>
    if entryLive ip e then
      { e with
        mac_addr :=
          if batadv_compare_eth e.mac_addr mac > 0 then e.mac_addr
          else mac.take ETH_ALEN,
        last_update := now } :: rest
    else e :: bucketUpdate rest ip mac now

/-- Modelled from the spec: batadv_hash_add (declared in hash.h, which is
not part of src/) atomically scans the bucket with the compare callback
(batadv_compare_dat) and inserts the new entry at the bucket head only when
no entry with the same key is present; it returns nonzero when a duplicate
key is found, which is how an upsert loses an insertion race (spec sections
4.1 and 7). -/
def batadv_hash_add (h : BatadvHashtable) (fresh : DatEntry) :
    Nat × BatadvHashtable :=
  let b := getBucket h fresh.ip
  if b.any (fun e => batadv_compare_dat e.ip fresh.ip) then (1, h)
  else (0, setBucket h fresh.ip (fresh :: b))

/-- Drop the local reference on the just-inserted bucket head (the free_ref
at line 257 acting on the entry hash_add linked in). -/
def decRefHead : List DatEntry → List DatEntry
  | [] => []
  | e :: rest => { e with refcount := e.refcount - 1 } :: rest

/-- The insertion path of batadv_dat_entry_add (lines 233-257) after the
fresh entry has been built with refcount 2 (lines 237-240): hash_add either
links it (and the free_ref at out leaves the table owning it with one
reference) or reports a duplicate, in which case the free_ref at line 248
and the free_ref at out drop both references and the fresh entry is freed.
The second component is the fresh entry's final reference count (0 means it
was freed and discarded). -/
def datInsertPhase (h : BatadvHashtable) (fresh : DatEntry) :
    BatadvHashtable × Nat :=
  match batadv_hash_add h fresh with
  | (0, h2) =>
    (setBucket h2 fresh.ip (decRefHead (getBucket h2 fresh.ip)),
     fresh.refcount - 1)
  | (_, _) => (h, fresh.refcount - 2)

/-- batadv_dat_entry_add (lines 215-258): look the address up; if a live
entry exists take the update path, otherwise build a fresh entry with
refcount 2 (alloc_ok false models kmalloc returning NULL, a silent no-op)
and run the insertion path. -/
def batadv_dat_entry_add (h : BatadvHashtable) (ip : Nat) (mac : List Nat)
    (now : Nat) (alloc_ok : Bool) : BatadvHashtable :=
  match (batadv_dat_entry_hash_find (some h) ip).1 with
  | some _ => setBucket h ip (bucketUpdate (getBucket h ip) ip mac now)
  | none =>
    if alloc_ok then
      (datInsertPhase h
        { ip := ip, mac_addr := mac.take ETH_ALEN, last_update := now,
          refcount := 2 }).1
    else h

/-- Modelled from the spec: batadv_has_timed_out (declared in main.h, which
is not part of src/) holds when now - timestamp exceeds the timeout (spec
section 4.2: is_stale(entry) = now - entry.last_update > entry_timeout). -/
def batadv_has_timed_out (now timestamp timeout : Nat) : Bool :=
  now - timestamp > timeout

/-- batadv_dat_to_purge (lines 61-65): an entry is purged when its
last_update has timed out against BATADV_DAT_ENTRY_TIMEOUT (a configured
constant, passed here as the timeout parameter). -/
def batadv_dat_to_purge (now timeout : Nat) (e : DatEntry) : Bool :=
  batadv_has_timed_out now e.last_update timeout

/-- Embeds __batadv_dat_purge (lines 78-108): NULL table is a no-op; else
every bucket keeps exactly the entries for which the predicate (when one is
passed) returns false; with no predicate every entry is unlinked.  Each
removed entry loses the store reference and is freed once readers drop
theirs. -/
def underscore_batadv_dat_purge (hq : Option BatadvHashtable)
    (to_purge : Option (DatEntry → Bool)) : Option BatadvHashtable :=
  match hq with
  | none => none
  | some h =>
    some { h with
      table := h.table.map (fun b =>
        b.filter (fun e =>
          match to_purge with
          | some p => !p e
          | none => false)) }

/-- A next-hop neighbour as handed out by batadv_orig_node_get_router. -/
structure NeighNode where
  addr : List Nat
deriving DecidableEq

/-- Observable side effects of one batadv_dat_send_data call: payloads
handed to the transport (by candidate index), transmissions the transport
accepted, and the reference-count traffic on originator nodes and on
next-hop neighbours. -/
structure SendLog where
  attempted : List Nat
  accepted : List Nat
  released_orig : List OrigNode
  acquired_neigh : List NeighNode
  released_neigh : List NeighNode
deriving DecidableEq

/-- The log of a call that performed nothing. -/
def emptySendLog : SendLog :=
  { attempted := [], accepted := [], released_orig := [],
    acquired_neigh := [], released_neigh := [] }

/-- The body of the candidate loop of batadv_dat_send_data (lines 442-468)
for one candidate slot.  The external collaborators are oracles: router
resolves a next hop for a node (batadv_orig_node_get_router), prepare_ok
tells whether pskb_copy plus batadv_unicast_4addr_prepare_skb succeed for
the i-th candidate, and xmit_ok whether batadv_send_skb_packet returns
NET_XMIT_SUCCESS.  Every exit of the body releases the next-hop reference
(free_neigh) when one was acquired and the candidate's originator
reference (free_orig). -/
def sendStep (router : OrigNode → Option NeighNode)
    (prepare_ok xmit_ok : Nat → Bool) (acc : Bool × SendLog)
    (ic : Nat × Candidate) : Bool × SendLog :=
  match ic.2 with
  | Candidate.notFound => acc
  | Candidate.found n =>
    match router n with
    | none =>
      (acc.1, { acc.2 with released_orig := acc.2.released_orig ++ [n] })
    | some nn =>
      let log := { acc.2 with
        acquired_neigh := acc.2.acquired_neigh ++ [nn] }
      if prepare_ok ic.1 then
        let sent := xmit_ok ic.1
        let log := { log with
          attempted := log.attempted ++ [ic.1],
          accepted := if sent then log.accepted ++ [ic.1]
            else log.accepted }
        (acc.1 || sent,
         { log with
           released_neigh := log.released_neigh ++ [nn],
           released_orig := log.released_orig ++ [n] })
      else
        (acc.1,
         { log with
           released_neigh := log.released_neigh ++ [nn],
           released_orig := log.released_orig ++ [n] })

/-- batadv_dat_send_data (lines 425-473): select the candidates; a NULL
candidate array (no registry or allocation failure) returns false with no
side effects; otherwise run the candidate loop over all
BATADV_DAT_CANDIDATES_NUM slots.  Returns none when candidate selection
crashes, otherwise the boolean result together with the side-effect log. -/
def batadv_dat_send_data (orig_hash : Option (List OrigNode))
    (alloc_ok : Bool) (ip_dst : List Nat)
    (router : OrigNode → Option NeighNode)
    (prepare_ok xmit_ok : Nat → Bool) : Option (Bool × SendLog) :=
  match batadv_dat_select_candidates orig_hash alloc_ok ip_dst with
  | SelectResult.null => some (false, emptySendLog)
  | SelectResult.crash => none
  | SelectResult.ok cands =>
    some (cands.enum.foldl (sendStep router prepare_ok xmit_ok)
      (false, emptySendLog))

/-- The nodes of the Found slots of a candidate array, in slot order. -/
def foundNodes (cs : List Candidate) : List OrigNode :=
  cs.filterMap (fun c =>
    match c with
    | Candidate.found n => some n
    | Candidate.notFound => none)

/-- The ring width exactly as claim C1 words it: the full 32-bit unsigned
space. -/
def RING_SIZE : Nat := 2 ^ 32

/-- The ring key exactly as claim C1 words it:
ring_key = mix(lookup_key) mod RING_SIZE. -/
def spec_claim_ring_key (lookup_key : List Nat) : Nat :=
  batadv_hash_mix lookup_key % RING_SIZE

/-- The distance exactly as claim C1 words it:
distance(p, ring_key) = (RING_SIZE - p + ring_key) mod RING_SIZE, read over
the integers. -/
def spec_claim_distance (p ring_key : Nat) : Nat :=
  (((RING_SIZE : Int) - p + ring_key) % (RING_SIZE : Int)).toNat

/-- The amended distance formula: the code subtracts the node position from
BATADV_DAT_ADDR_MAX = RING_SIZE - 1, not from RING_SIZE, so the distance is
(RING_SIZE - 1 - p + ring_key) mod RING_SIZE, read over the integers. -/
def spec_amended_distance (p ring_key : Nat) : Nat :=
  (((RING_SIZE : Int) - 1 - p + ring_key) % (RING_SIZE : Int)).toNat

/-- The amended ring key: the code reduces the Jenkins mix modulo
BATADV_DAT_ADDR_MAX = RING_SIZE - 1, not modulo RING_SIZE. -/
def spec_amended_ring_key (lookup_key : List Nat) : Nat :=
  batadv_hash_mix lookup_key % (RING_SIZE - 1)

theorem getD_set_self {α : Type} (l : List α) (i : Nat) (a d : α)
    (h : i < l.length) : (l.set i a).getD i d = a := by
  induction l generalizing i with
  | nil => simp at h
  | cons x xs ih =>
    cases i with
    | zero => rfl
    | succ j =>
      simp only [List.set_cons_succ, List.getD_cons_succ]
      exact ih j (by simpa using h)

theorem sum_map_length_set {α : Type} (l : List (List α)) (i : Nat)
    (b : List α) (hlen : b.length = (l.getD i []).length) :
    ((l.set i b).map List.length).sum = (l.map List.length).sum := by
  induction l generalizing i with
  | nil => simp
  | cons x xs ih =>
    cases i with
    | zero => simp_all
    | succ j =>
      simp only [List.set_cons_succ, List.map_cons, List.sum_cons]
      rw [ih j (by simpa using hlen)]

theorem mem_enumFrom_snd {α : Type} :
    ∀ (l : List α) (n : Nat) (p : Nat × α), p ∈ l.enumFrom n → p.2 ∈ l := by
  intro l
  induction l with
  | nil => intro n p hp; simp [List.enumFrom] at hp
  | cons x xs ih =>
    intro n p hp
    simp only [List.enumFrom] at hp
    rcases List.mem_cons.mp hp with h | h
    · rw [h]; exact List.mem_cons_self x xs
    · exact List.mem_cons_of_mem x (ih (n + 1) p h)

theorem enumFrom_map_snd {α : Type} :
    ∀ (l : List α) (n : Nat), (l.enumFrom n).map Prod.snd = l := by
  intro l
  induction l with
  | nil => intro n; rfl
  | cons x xs ih => intro n; simp [List.enumFrom, ih]

theorem ipBytes_inj (x y : Nat) (hx : x < U32MOD) (hy : y < U32MOD)
    (h : ipBytes x = ipBytes y) : x = y := by
  simp only [ipBytes, List.cons.injEq, and_true] at h
  unfold U32MOD at hx hy
  omega

theorem eligible_true_facts (res : List Candidate) (tmp_max mx last_max : Nat)
    (candidate : OrigNode) (mon : Option OrigNode)
    (h : batadv_is_orig_node_eligible res tmp_max mx last_max candidate mon =
      some true) :
    res.any (fun c => candMatches c candidate) = false ∧
      tmp_max ≤ last_max ∧ mx ≤ tmp_max := by
  unfold batadv_is_orig_node_eligible at h
  by_cases h1 : res.any (fun c => candMatches c candidate)
  · simp [h1] at h
  · by_cases h2 : tmp_max > last_max
    · simp [h1, h2] at h
    · by_cases h3 : tmp_max < mx
      · simp [h1, h2, h3] at h
      · exact ⟨by simpa using h1, Nat.le_of_not_lt h2, Nat.le_of_not_lt h3⟩

theorem chooseStep_cases (cands : List Candidate) (lm key : Nat)
    (st : RoundState) (n : OrigNode) (st2 : RoundState)
    (h : chooseStep cands lm key st n = some st2) :
    st2 = st ∨
      (batadv_is_orig_node_eligible cands
          (batadv_dat_distance n.dat_addr key) st.max lm n st.max_orig_node =
            some true ∧
        st2 = { max := batadv_dat_distance n.dat_addr key,
                max_orig_node := some n }) := by
  simp only [chooseStep] at h
  split at h
  · exact absurd h (by simp)
  · exact Or.inl (Option.some.inj h).symm
  · rename_i heq
    exact Or.inr ⟨heq, (Option.some.inj h).symm⟩

theorem foldlM_option_invariant {α β : Type} (P : β → Prop)
    (f : β → α → Option β)
    (hstep : ∀ st a st2, f st a = some st2 → P st → P st2) :
    ∀ (l : List α) (st0 st : β), List.foldlM f st0 l = some st → P st0 →
      P st := by
  intro l
  induction l with
  | nil =>
    intro st0 st h h0
    simp only [List.foldlM_nil] at h
    exact (Option.some.inj h) ▸ h0
  | cons a as ih =>
    intro st0 st h h0
    rw [List.foldlM_cons] at h
    cases hfa : f st0 a with
    | none => rw [hfa] at h; exact absurd h (by simp)
    | some s1 =>
      rw [hfa] at h
      simp only [Option.bind_eq_bind, Option.some_bind] at h
      exact ih s1 st h (hstep st0 a s1 hfa h0)

/-- The invariant carried through one round scan: the round maximum never
exceeds the incoming last_max, and a recorded maximum node realises the
round maximum and is not among the already selected candidates. -/
def RoundInv (cands : List Candidate) (last_max ip_key : Nat)
    (st : RoundState) : Prop :=
  st.max ≤ last_max ∧
    ∀ m, st.max_orig_node = some m →
      st.max = batadv_dat_distance m.dat_addr ip_key ∧
        cands.any (fun c => candMatches c m) = false

theorem roundInv_preserved (cands : List Candidate) (last_max ip_key : Nat)
    (s : RoundState) (a : OrigNode) (s2 : RoundState)
    (hs : chooseStep cands last_max ip_key s a = some s2)
    (hP : RoundInv cands last_max ip_key s) :
    RoundInv cands last_max ip_key s2 := by
  rcases chooseStep_cases cands last_max ip_key s a s2 hs with
    heq | ⟨helig, heq⟩
  · exact heq ▸ hP
  · obtain ⟨hmem, hle, _⟩ := eligible_true_facts _ _ _ _ _ _ helig
    subst heq
    refine ⟨hle, ?_⟩
    intro m hm
    have ham : a = m := Option.some.inj hm
    subst ham
    exact ⟨rfl, hmem⟩

theorem choose_next_candidate_spec (registry : List OrigNode)
    (cands : List Candidate) (last_max ip_key : Nat) (c : Candidate)
    (nl : Nat)
    (h : batadv_choose_next_candidate registry cands last_max ip_key =
      some (c, nl)) :
    nl ≤ last_max ∧
      ∀ m, c = Candidate.found m →
        batadv_dat_distance m.dat_addr ip_key = nl ∧
          cands.any (fun cc => candMatches cc m) = false := by
  unfold batadv_choose_next_candidate at h
  split at h
  · exact absurd h (by simp)
  · rename_i st hf
    have hinv : RoundInv cands last_max ip_key st :=
      foldlM_option_invariant (RoundInv cands last_max ip_key) _
        (roundInv_preserved cands last_max ip_key) registry _ st hf
        ⟨Nat.zero_le _, fun m hm => absurd hm (by simp)⟩
    split at h
    · rename_i hmon
      obtain ⟨hc, hnl⟩ := Prod.mk.injEq _ _ _ _ ▸ Option.some.inj h
      refine ⟨hnl ▸ hinv.1, fun m hm => ?_⟩
      rw [← hc] at hm
      exact absurd hm (by simp)
    · rename_i m0 hmon
      obtain ⟨hc, hnl⟩ := Prod.mk.injEq _ _ _ _ ▸ Option.some.inj h
      refine ⟨hnl ▸ hinv.1, fun m hm => ?_⟩
      rw [← hc] at hm
      have hm0 : m0 = m := Candidate.found.inj hm
      subst hm0
      obtain ⟨hd, hmem⟩ := hinv.2 m0 hmon
      exact ⟨by rw [← hd, hnl], hmem⟩

/-- Pairwise soundness of the candidate array for ring key ip_key: any two
Found slots hold distinct nodes, and the later slot's node is not farther
from the key than the earlier slot's node. -/
def SelPairwise (ip_key : Nat) (acc : List Candidate) : Prop :=
  List.Pairwise (fun a b => ∀ ma mb, a = Candidate.found ma →
    b = Candidate.found mb →
      ma ≠ mb ∧ batadv_dat_distance mb.dat_addr ip_key ≤
        batadv_dat_distance ma.dat_addr ip_key) acc

theorem selectLoop_spec (registry : List OrigNode) (ip_key : Nat) :
    ∀ (n : Nat) (acc : List Candidate) (last_max : Nat)
      (cands : List Candidate) (fl : Nat),
      selectLoop registry ip_key n acc last_max = some (cands, fl) →
      (∀ c ∈ acc, ∀ m, c = Candidate.found m →
        last_max ≤ batadv_dat_distance m.dat_addr ip_key) →
      SelPairwise ip_key acc →
      cands.length = acc.length + n ∧ SelPairwise ip_key cands := by
  intro n
  induction n with
  | zero =>
    intro acc last_max cands fl h hlb hpw
    simp only [selectLoop] at h
    obtain ⟨h1, h2⟩ := Prod.mk.injEq _ _ _ _ ▸ Option.some.inj h
    subst h1
    exact ⟨by simp, hpw⟩
  | succ k ih =>
    intro acc last_max cands fl h hlb hpw
    simp only [selectLoop] at h
    split at h
    · exact absurd h (by simp)
    · rename_i c nl hch
      obtain ⟨hnl, hfound⟩ :=
        choose_next_candidate_spec registry acc last_max ip_key c nl hch
      have hlb2 : ∀ cc ∈ acc ++ [c], ∀ m, cc = Candidate.found m →
          nl ≤ batadv_dat_distance m.dat_addr ip_key := by
        intro cc hcc m hm
        rcases List.mem_append.mp hcc with hin | hin
        · exact Nat.le_trans hnl (hlb cc hin m hm)
        · have hc : cc = c := by simpa using hin
          exact Nat.le_of_eq ((hfound m (hc ▸ hm)).1).symm
      have hpw2 : SelPairwise ip_key (acc ++ [c]) := by
        rw [SelPairwise, List.pairwise_append]
        refine ⟨hpw, by simp, ?_⟩
        intro a ha b hb ma mb hma hmb
        have hb2 : b = c := by simpa using hb
        obtain ⟨hd, hany⟩ := hfound mb (hb2 ▸ hmb)
        constructor
        · intro hcontra
          have := (List.any_eq_false.mp hany) a ha
          rw [hma, hcontra] at this
          simp [candMatches] at this
        · exact hd ▸ Nat.le_trans hnl (hlb a ha ma hma)
      obtain ⟨hl, hp⟩ := ih (acc ++ [c]) nl cands fl h hlb2 hpw2
      refine ⟨by rw [hl]; simp; omega, hp⟩

/-- Claim C3 (amended): for every registry and key, a completed K-round
selection returns a candidate array of length K whose Found slots hold
pairwise distinct nodes in non-increasing order of ring distance to the
key: eligibility in a round requires the distance not to exceed the
previous round's recorded maximum, so no round selects a node farther than
the node chosen in any earlier round.  (last_max starts at
BATADV_DAT_ADDR_MAX, the maximum distance value, an inclusive and
attainable upper bound.) -/
theorem C3_selection_nonincreasing (registry : List OrigNode)
    (ip_dst : List Nat) (cands : List Candidate)
    (h : batadv_dat_select_candidates (some registry) true ip_dst =
      SelectResult.ok cands) :
    cands.length = BATADV_DAT_CANDIDATES_NUM ∧
      SelPairwise (batadv_hash_dat ip_dst BATADV_DAT_ADDR_MAX) cands := by
  simp only [batadv_dat_select_candidates, if_true] at h
  split at h
  · exact absurd h (by simp)
  · rename_i cs fl hloop
    have hcs : cs = cands := by
      have := SelectResult.ok.inj h
      exact this
    subst hcs
    obtain ⟨hl, hp⟩ := selectLoop_spec registry
      (batadv_hash_dat ip_dst BATADV_DAT_ADDR_MAX)
      BATADV_DAT_CANDIDATES_NUM [] BATADV_DAT_ADDR_MAX cs fl hloop
      (by intro c hc; exact absurd hc (by simp)) (by simp [SelPairwise])
    exact ⟨by simpa using hl, hp⟩

/-- Claim C3 counterexample to the claim as stated: last_max is initialised
to BATADV_DAT_ADDR_MAX (line 389), which is not an unreachable upper bound:
a node whose ring position equals the ring key has distance exactly
BATADV_DAT_ADDR_MAX, and such a node is eligible and selected in round 0,
so the initial bound is attained, not unreachable. -/
theorem C3_counterexample :
    batadv_dat_select_candidates
        (some [{ orig := [7, 7, 7, 7, 7, 7], dat_addr := 2386459755 }]) true
        [1, 2, 3, 4] =
      SelectResult.ok
        [Candidate.found { orig := [7, 7, 7, 7, 7, 7], dat_addr := 2386459755 },
         Candidate.notFound, Candidate.notFound] ∧
    batadv_dat_distance 2386459755
        (batadv_hash_dat [1, 2, 3, 4] BATADV_DAT_ADDR_MAX) =
      BATADV_DAT_ADDR_MAX ∧
    ¬ batadv_dat_distance 2386459755
        (batadv_hash_dat [1, 2, 3, 4] BATADV_DAT_ADDR_MAX) <
      BATADV_DAT_ADDR_MAX := by
  refine ⟨by decide, by decide, by decide⟩

/-- Claim C3 witness: the soundness theorem applied to the concrete
single-node registry whose node sits exactly at the ring key. -/
theorem C3_witness :
    ([Candidate.found { orig := [7, 7, 7, 7, 7, 7], dat_addr := 2386459755 },
      Candidate.notFound, Candidate.notFound] : List Candidate).length =
        BATADV_DAT_CANDIDATES_NUM ∧
      SelPairwise (batadv_hash_dat [1, 2, 3, 4] BATADV_DAT_ADDR_MAX)
        [Candidate.found { orig := [7, 7, 7, 7, 7, 7], dat_addr := 2386459755 },
         Candidate.notFound, Candidate.notFound] :=
  C3_selection_nonincreasing
    [{ orig := [7, 7, 7, 7, 7, 7], dat_addr := 2386459755 }] [1, 2, 3, 4] _
    (by decide)

/-- Claim C1 counterexample: for lookup key bytes [1,2,3,4] and a node at
ring position 0, the selector computes tmp_max =
BATADV_DAT_ADDR_MAX - 0 + ip_key = 2386459754, while the claimed formula
(RING_SIZE - p + ring_key) mod RING_SIZE with
ring_key = mix(key) mod RING_SIZE gives 2386459755: the code subtracts the
position from RING_SIZE - 1, not from RING_SIZE, so the two values differ
at every input. -/
theorem C1_counterexample :
    batadv_dat_distance 0
        (batadv_hash_dat [1, 2, 3, 4] BATADV_DAT_ADDR_MAX) ≠
      spec_claim_distance 0 (spec_claim_ring_key [1, 2, 3, 4]) := by
  decide

/-- Claim C1 (amended): the candidate selector computes a node's distance
as (RING_SIZE - 1 - p + ring_key) mod RING_SIZE, i.e. it subtracts the
ring position from BATADV_DAT_ADDR_MAX = RING_SIZE - 1 and wraps modulo the
32-bit space, and the ring key is the Jenkins mix of the 4 key bytes
reduced modulo BATADV_DAT_ADDR_MAX = RING_SIZE - 1 (not modulo RING_SIZE;
the two reductions agree unless the mix is exactly RING_SIZE - 1). -/
theorem C1_distance_formula :
    (∀ p rk : Nat, p < RING_SIZE → rk < RING_SIZE →
      batadv_dat_distance p rk = spec_amended_distance p rk) ∧
    ∀ key : List Nat,
      batadv_hash_dat key BATADV_DAT_ADDR_MAX = spec_amended_ring_key key := by
  constructor
  · intro p rk hp hrk
    simp only [batadv_dat_distance, spec_amended_distance,
      BATADV_DAT_ADDR_MAX, RING_SIZE, U32MOD] at *
    omega
  · intro key
    rfl

/-- Claim C1 witness: the amended distance formula evaluated at the
concrete position 5, ring key 7, and the ring-key reduction at key bytes
[1,2,3,4]. -/
theorem C1_witness :
    batadv_dat_distance 5 7 = spec_amended_distance 5 7 ∧
      batadv_hash_dat [1, 2, 3, 4] BATADV_DAT_ADDR_MAX =
        spec_amended_ring_key [1, 2, 3, 4] :=
  ⟨C1_distance_formula.1 5 7 (by decide) (by decide),
   C1_distance_formula.2 [1, 2, 3, 4]⟩

/-- Claim C2: the code does not prefer the numerically smaller hardware
address on a distance tie, and the selection is scan-order dependent.  Two
nodes share ring position 0; with scan order [01.., 02..] round 0 selects
the 02 node, with scan order [02.., 01..] it selects the 01 node: the
equal-distance check batadv_compare_eth(candidate->orig,
max_orig_node->orig) > 0 rejects a candidate only when the two hardware
addresses are byte-for-byte equal (batadv_compare_eth is an equality test),
so on a genuine tie the last-scanned node always replaces the recorded one,
contradicting the claim (and the code's own comment at lines 297-299,
choose the one with the lowest address). -/
theorem C2_tie_break_order_dependent :
    batadv_dat_select_candidates
        (some [{ orig := [1, 0, 0, 0, 0, 0], dat_addr := 0 },
               { orig := [2, 0, 0, 0, 0, 0], dat_addr := 0 }]) true
        [10, 20, 30, 40] =
      SelectResult.ok
        [Candidate.found { orig := [2, 0, 0, 0, 0, 0], dat_addr := 0 },
         Candidate.found { orig := [1, 0, 0, 0, 0, 0], dat_addr := 0 },
         Candidate.notFound] ∧
    batadv_dat_select_candidates
        (some [{ orig := [2, 0, 0, 0, 0, 0], dat_addr := 0 },
               { orig := [1, 0, 0, 0, 0, 0], dat_addr := 0 }]) true
        [10, 20, 30, 40] =
      SelectResult.ok
        [Candidate.found { orig := [1, 0, 0, 0, 0, 0], dat_addr := 0 },
         Candidate.found { orig := [2, 0, 0, 0, 0, 0], dat_addr := 0 },
         Candidate.notFound] := by
  refine ⟨by decide, by decide⟩

/-- Claim C10: the equal-distance tie-break comparison is reachable with no
round-maximum node recorded.  With lookup key [1,2,3,4] the ring key is
2386459755; a node at ring position 2386459754 has distance 0, equal to the
initial round maximum 0, so the very first scan iteration enters the
tie-break with max_orig_node still NULL and the code dereferences a NULL
pointer (modelled as the crash outcome).  The second conjunct isolates the
offending eligibility call itself. -/
theorem C10_null_deref :
    batadv_dat_select_candidates
        (some [{ orig := [5, 5, 5, 5, 5, 5], dat_addr := 2386459754 }]) true
        [1, 2, 3, 4] = SelectResult.crash ∧
    batadv_is_orig_node_eligible [] 0 0 BATADV_DAT_ADDR_MAX
        { orig := [5, 5, 5, 5, 5, 5], dat_addr := 2386459754 } none =
      none := by
  refine ⟨by decide, by decide⟩

/-- Well-formedness of the DAT table as created by batadv_dat_init and
preserved by its operations: the bucket array has the declared size, the
size is positive, and every linked entry holds a store reference (nonzero
refcount), a full-width hardware address, and a 32-bit address value. -/
def WellFormedTable (h : BatadvHashtable) : Prop :=
  h.table.length = h.size ∧ 0 < h.size ∧
    ∀ b ∈ h.table, ∀ e ∈ b,
      e.refcount ≠ 0 ∧ e.mac_addr.length = ETH_ALEN ∧ e.ip < U32MOD

theorem datIndex_lt (h : BatadvHashtable) (ip : Nat)
    (hlen : h.table.length = h.size) (hpos : 0 < h.size) :
    datIndex h ip < h.table.length := by
  rw [hlen]
  exact Nat.mod_lt _ hpos

theorem wellFormed_bucket (h : BatadvHashtable) (hwf : WellFormedTable h)
    (ip : Nat) :
    ∀ e ∈ getBucket h ip,
      e.refcount ≠ 0 ∧ e.mac_addr.length = ETH_ALEN ∧ e.ip < U32MOD := by
  intro e he
  unfold getBucket at he
  rcases Nat.lt_or_ge (datIndex h ip) h.table.length with hlt | hge
  · rw [List.getD_eq_getElem _ _ hlt] at he
    exact hwf.2.2 _ (List.getElem_mem hlt) e he
  · rw [List.getD_eq_default _ _ hge] at he
    simp at he

theorem getBucket_setBucket_self (h : BatadvHashtable) (ip : Nat)
    (b : List DatEntry) (hlen : h.table.length = h.size) (hpos : 0 < h.size) :
    getBucket (setBucket h ip b) ip = b := by
  unfold getBucket setBucket datIndex at *
  exact getD_set_self _ _ _ _ (datIndex_lt h ip hlen hpos)

theorem bucketAcquire_eq_none (b : List DatEntry) (ip : Nat) :
    (bucketAcquire b ip).1 = none ↔ ∀ e ∈ b, entryLive ip e = false := by
  induction b with
  | nil => simp [bucketAcquire]
  | cons e rest ih =>
    by_cases hl : entryLive ip e
    · simp [bucketAcquire, hl]
    · have hl2 : entryLive ip e = false := Bool.of_not_eq_true hl
      simp only [bucketAcquire, hl2, Bool.false_eq_true, if_false,
        List.mem_cons]
      rw [ih]
      constructor
      · intro hall e2 he2
        rcases he2 with he2 | he2
        · rw [he2]; exact hl2
        · exact hall e2 he2
      · intro hall e2 he2
        exact hall e2 (Or.inr he2)

theorem bucketAcquire_eq_some (b : List DatEntry) (ip : Nat) (e : DatEntry)
    (h : (bucketAcquire b ip).1 = some e) :
    e.ip = ip ∧ 2 ≤ e.refcount ∧
      ∃ e0 ∈ b, e = { e0 with refcount := e0.refcount + 1 } := by
  induction b with
  | nil => simp [bucketAcquire] at h
  | cons e0 rest ih =>
    by_cases hl : entryLive ip e0
    · simp only [bucketAcquire, hl, if_true] at h
      have he : { e0 with refcount := e0.refcount + 1 } = e :=
        Option.some.inj h
      obtain ⟨hip, hrc⟩ : e0.ip = ip ∧ e0.refcount ≠ 0 := by
        simpa [entryLive] using hl
      subst he
      refine ⟨hip, ?_, e0, List.mem_cons_self e0 rest, rfl⟩
      show 2 ≤ e0.refcount + 1
      omega
    · simp only [bucketAcquire, hl, if_false] at h
      obtain ⟨hip, hrc, e1, he1, heq⟩ := ih h
      exact ⟨hip, hrc, e1, List.mem_cons_of_mem e0 he1, heq⟩

theorem bucketUpdate_length (b : List DatEntry) (ip : Nat) (mac : List Nat)
    (now : Nat) : (bucketUpdate b ip mac now).length = b.length := by
  induction b with
  | nil => rfl
  | cons e rest ih =>
    by_cases hl : entryLive ip e
    · simp [bucketUpdate, hl]
    · simp [bucketUpdate, hl, ih]

theorem bucketAcquire_bucketUpdate (b : List DatEntry) (ip : Nat)
    (mac : List Nat) (now : Nat) (e : DatEntry)
    (h : (bucketAcquire b ip).1 = some e) :
    (bucketAcquire (bucketUpdate b ip mac now) ip).1 =
      some { ip := e.ip,
             mac_addr := if batadv_compare_eth e.mac_addr mac > 0
               then e.mac_addr else mac.take ETH_ALEN,
             last_update := now, refcount := e.refcount } := by
  induction b with
  | nil => simp [bucketAcquire] at h
  | cons e0 rest ih =>
    by_cases hl : entryLive ip e0
    · simp only [bucketAcquire, hl, if_true] at h
      have he : { e0 with refcount := e0.refcount + 1 } = e :=
        Option.some.inj h
      have hl2 : entryLive ip
          { e0 with
            mac_addr := if batadv_compare_eth e0.mac_addr mac > 0
              then e0.mac_addr else mac.take ETH_ALEN,
            last_update := now } = true := by
        simpa [entryLive] using hl
      simp only [bucketUpdate, hl, if_true, bucketAcquire, hl2]
      rw [← he]
    · have hl2 : entryLive ip e0 = false := Bool.of_not_eq_true hl
      simp only [bucketAcquire, hl, if_false] at h
      simp only [bucketUpdate, hl, if_false, bucketAcquire, hl2,
        Bool.false_eq_true]
      exact ih h

/-- The entry count of the store, as observed across upserts. -/
def datCount (h : BatadvHashtable) : Nat := (datEntriesOf h).length

theorem hash_find_fst (h : BatadvHashtable) (ip : Nat) :
    (batadv_dat_entry_hash_find (some h) ip).1 =
      (bucketAcquire (getBucket h ip) ip).1 := rfl

theorem take_full (l : List Nat) (hl : l.length = ETH_ALEN) :
    l.take ETH_ALEN = l := by
  rw [← hl, List.take_length]

theorem compare_eth_overwrite (a b : List Nat) (ha : a.length = ETH_ALEN)
    (hb : b.length = ETH_ALEN) :
    (if batadv_compare_eth a b > 0 then a else b.take ETH_ALEN) = b := by
  by_cases hab : a.take ETH_ALEN = b.take ETH_ALEN
  · have hab2 : a = b := by rw [← take_full a ha, ← take_full b hb]; exact hab
    simp [batadv_compare_eth, hab, hab2]
  · have h0 : batadv_compare_eth a b = 0 := by
      simp [batadv_compare_eth, hab]
    rw [h0]
    simp [take_full b hb]

theorem setBucket_size (h : BatadvHashtable) (ip : Nat) (b : List DatEntry) :
    (setBucket h ip b).size = h.size := rfl

theorem setBucket_table_length (h : BatadvHashtable) (ip : Nat)
    (b : List DatEntry) :
    (setBucket h ip b).table.length = h.table.length := by
  simp [setBucket]

theorem setBucket_setBucket (h : BatadvHashtable) (ip : Nat)
    (x y : List DatEntry) :
    setBucket (setBucket h ip x) ip y = setBucket h ip y := by
  simp [setBucket, datIndex, List.set_set]

theorem entry_add_update_path (h : BatadvHashtable) (A : Nat)
    (mac : List Nat) (now : Nat) (e : DatEntry)
    (hlen : h.table.length = h.size) (hpos : 0 < h.size)
    (hfind : (bucketAcquire (getBucket h A) A).1 = some e)
    (hmaclen : mac.length = ETH_ALEN)
    (hemaclen : e.mac_addr.length = ETH_ALEN) :
    batadv_dat_entry_add h A mac now true =
      setBucket h A (bucketUpdate (getBucket h A) A mac now) ∧
    (batadv_dat_entry_hash_find
        (some (batadv_dat_entry_add h A mac now true)) A).1 =
      some { ip := e.ip, mac_addr := mac, last_update := now,
             refcount := e.refcount } := by
  have hadd : batadv_dat_entry_add h A mac now true =
      setBucket h A (bucketUpdate (getBucket h A) A mac now) := by
    unfold batadv_dat_entry_add
    rw [hash_find_fst, hfind]
  refine ⟨hadd, ?_⟩
  rw [hadd, hash_find_fst, getBucket_setBucket_self h A _ hlen hpos,
    bucketAcquire_bucketUpdate _ _ mac now e hfind,
    compare_eth_overwrite e.mac_addr mac hemaclen hmaclen]

theorem entry_add_insert_path (h : BatadvHashtable) (A : Nat)
    (mac : List Nat) (now : Nat)
    (hwf : WellFormedTable h) (hA : A < U32MOD)
    (hfind : (bucketAcquire (getBucket h A) A).1 = none)
    (hmaclen : mac.length = ETH_ALEN) :
    batadv_dat_entry_add h A mac now true =
      setBucket h A
        ({ ip := A, mac_addr := mac, last_update := now, refcount := 1 } ::
          getBucket h A) ∧
    (batadv_dat_entry_hash_find
        (some (batadv_dat_entry_add h A mac now true)) A).1 =
      some { ip := A, mac_addr := mac, last_update := now,
             refcount := 2 } := by
  have hnone : ∀ e ∈ getBucket h A, entryLive A e = false :=
    (bucketAcquire_eq_none _ _).mp hfind
  have hany : (getBucket h A).any
      (fun e => batadv_compare_dat e.ip A) = false := by
    rw [List.any_eq_false]
    intro e he hcmp
    obtain ⟨hrc, _, hip⟩ := wellFormed_bucket h hwf A e he
    have hlive := hnone e he
    have hne : e.ip ≠ A := by
      simp only [entryLive, Bool.and_eq_false_iff] at hlive
      rcases hlive with hlive | hlive
      · exact fun hc => by simp [hc] at hlive
      · exact absurd (by simpa using hlive) hrc
    have : ipBytes e.ip = ipBytes A := by
      simpa [batadv_compare_dat] using hcmp
    exact hne (ipBytes_inj e.ip A hip hA this)
  have hta : batadv_hash_add h
      { ip := A, mac_addr := mac.take ETH_ALEN, last_update := now,
        refcount := 2 } =
      (0, setBucket h A
        ({ ip := A, mac_addr := mac.take ETH_ALEN, last_update := now,
           refcount := 2 } :: getBucket h A)) := by
    simp [batadv_hash_add, hany]
  have hadd : batadv_dat_entry_add h A mac now true =
      setBucket h A
        ({ ip := A, mac_addr := mac, last_update := now, refcount := 1 } ::
          getBucket h A) := by
    unfold batadv_dat_entry_add
    rw [hash_find_fst, hfind]
    show (datInsertPhase h _).1 = _
    unfold datInsertPhase
    rw [hta]
    show setBucket _ A (decRefHead (getBucket (setBucket h A _) A)) = _
    rw [getBucket_setBucket_self h A _ hwf.1 hwf.2.1]
    show setBucket _ A
      ({ ip := A, mac_addr := mac.take ETH_ALEN, last_update := now,
         refcount := 1 } :: getBucket h A) = _
    rw [setBucket_setBucket, take_full mac hmaclen]
  refine ⟨hadd, ?_⟩
  rw [hadd, hash_find_fst, getBucket_setBucket_self h A _ hwf.1 hwf.2.1]
  have hlive : entryLive A
      { ip := A, mac_addr := mac, last_update := now, refcount := 1 } =
      true := by
    simp [entryLive]
  simp only [bucketAcquire, hlive, if_true]

theorem datCount_bucketUpdate (h : BatadvHashtable) (ip : Nat)
    (mac : List Nat) (now : Nat) :
    datCount (setBucket h ip (bucketUpdate (getBucket h ip) ip mac now)) =
      datCount h := by
  show ((h.table.set (datIndex h ip)
    (bucketUpdate (getBucket h ip) ip mac now)).flatten).length =
      (h.table.flatten).length
  rw [List.length_flatten, List.length_flatten]
  exact sum_map_length_set _ _ _ (by rw [bucketUpdate_length]; rfl)

theorem second_upsert (t1 : BatadvHashtable) (A : Nat) (H2 : List Nat)
    (n2 : Nat) (e1 : DatEntry) (hd1 : t1.table.length = t1.size)
    (hd2 : 0 < t1.size)
    (hlook1 : (batadv_dat_entry_hash_find (some t1) A).1 = some e1)
    (h2len : H2.length = ETH_ALEN)
    (he1len : e1.mac_addr.length = ETH_ALEN) :
    (batadv_dat_entry_hash_find
        (some (batadv_dat_entry_add t1 A H2 n2 true)) A).1 =
      some { ip := e1.ip, mac_addr := H2, last_update := n2,
             refcount := e1.refcount } ∧
    datCount (batadv_dat_entry_add t1 A H2 n2 true) = datCount t1 := by
  rw [hash_find_fst] at hlook1
  obtain ⟨hadd2, hlook2⟩ :=
    entry_add_update_path t1 A H2 n2 e1 hd1 hd2 hlook1 h2len he1len
  refine ⟨hlook2, ?_⟩
  rw [hadd2]
  exact datCount_bucketUpdate t1 A H2 n2

/-- Claim C4: for a well-formed store, after upsert(A,H1) a lookup of A
returns an entry holding H1 with last_update refreshed to the upsert time;
after a subsequent upsert(A,H2) the lookup returns H2 with the new time
(the hardware address is overwritten through the compare-then-copy of lines
224-225, which leaves the stored bytes untouched when they already equal
the new address), and the entry count is unchanged by the second upsert:
the existing entry is updated in place, never duplicated. -/
theorem C4_upsert_lookup (h : BatadvHashtable) (A : Nat) (H1 H2 : List Nat)
    (n1 n2 : Nat) (hwf : WellFormedTable h) (hA : A < U32MOD)
    (h1len : H1.length = ETH_ALEN) (h2len : H2.length = ETH_ALEN)
    (_hne : H1 ≠ H2) :
    ∃ e1 e2,
      (batadv_dat_entry_hash_find
          (some (batadv_dat_entry_add h A H1 n1 true)) A).1 = some e1 ∧
      e1.mac_addr = H1 ∧ e1.last_update = n1 ∧
      (batadv_dat_entry_hash_find
          (some (batadv_dat_entry_add (batadv_dat_entry_add h A H1 n1 true)
            A H2 n2 true)) A).1 = some e2 ∧
      e2.mac_addr = H2 ∧ e2.last_update = n2 ∧
      datCount (batadv_dat_entry_add (batadv_dat_entry_add h A H1 n1 true)
        A H2 n2 true) = datCount (batadv_dat_entry_add h A H1 n1 true) := by
  cases hfind : (bucketAcquire (getBucket h A) A).1 with
  | some e =>
    have hemac : e.mac_addr.length = ETH_ALEN := by
      obtain ⟨_, _, e0, he0, heq⟩ := bucketAcquire_eq_some _ _ _ hfind
      obtain ⟨_, hml, _⟩ := wellFormed_bucket h hwf A e0 he0
      rw [heq]
      exact hml
    obtain ⟨hadd1, hlook1⟩ :=
      entry_add_update_path h A H1 n1 e hwf.1 hwf.2.1 hfind h1len hemac
    have hd1 : (batadv_dat_entry_add h A H1 n1 true).table.length =
        (batadv_dat_entry_add h A H1 n1 true).size := by
      rw [hadd1, setBucket_table_length, setBucket_size]
      exact hwf.1
    have hd2 : 0 < (batadv_dat_entry_add h A H1 n1 true).size := by
      rw [hadd1, setBucket_size]
      exact hwf.2.1
    obtain ⟨hlook2, hcount⟩ :=
      second_upsert _ A H2 n2 _ hd1 hd2 hlook1 h2len h1len
    exact ⟨_, _, hlook1, rfl, rfl, hlook2, rfl, rfl, hcount⟩
  | none =>
    obtain ⟨hadd1, hlook1⟩ :=
      entry_add_insert_path h A H1 n1 hwf hA hfind h1len
    have hd1 : (batadv_dat_entry_add h A H1 n1 true).table.length =
        (batadv_dat_entry_add h A H1 n1 true).size := by
      rw [hadd1, setBucket_table_length, setBucket_size]
      exact hwf.1
    have hd2 : 0 < (batadv_dat_entry_add h A H1 n1 true).size := by
      rw [hadd1, setBucket_size]
      exact hwf.2.1
    obtain ⟨hlook2, hcount⟩ :=
      second_upsert _ A H2 n2 _ hd1 hd2 hlook1 h2len h1len
    exact ⟨_, _, hlook1, rfl, rfl, hlook2, rfl, rfl, hcount⟩

set_option maxRecDepth 8192 in
/-- Claim C4 witness: the upsert/lookup round trip on the empty 1024-bucket
table created by batadv_dat_init, at a concrete address and two concrete
distinct hardware addresses. -/
theorem C4_witness :
    ∃ e1 e2,
      (batadv_dat_entry_hash_find
          (some (batadv_dat_entry_add
            { size := 1024, table := List.replicate 1024 [] } 3232235521
            [1, 2, 3, 4, 5, 6] 10 true)) 3232235521).1 = some e1 ∧
      e1.mac_addr = [1, 2, 3, 4, 5, 6] ∧ e1.last_update = 10 ∧
      (batadv_dat_entry_hash_find
          (some (batadv_dat_entry_add (batadv_dat_entry_add
            { size := 1024, table := List.replicate 1024 [] } 3232235521
            [1, 2, 3, 4, 5, 6] 10 true) 3232235521
            [6, 5, 4, 3, 2, 1] 20 true)) 3232235521).1 = some e2 ∧
      e2.mac_addr = [6, 5, 4, 3, 2, 1] ∧ e2.last_update = 20 ∧
      datCount (batadv_dat_entry_add (batadv_dat_entry_add
        { size := 1024, table := List.replicate 1024 [] } 3232235521
        [1, 2, 3, 4, 5, 6] 10 true) 3232235521 [6, 5, 4, 3, 2, 1] 20 true) =
        datCount (batadv_dat_entry_add
          { size := 1024, table := List.replicate 1024 [] } 3232235521
          [1, 2, 3, 4, 5, 6] 10 true) :=
  C4_upsert_lookup { size := 1024, table := List.replicate 1024 [] }
    3232235521 [1, 2, 3, 4, 5, 6] [6, 5, 4, 3, 2, 1] 10 20
    (by refine ⟨by simp, by decide, ?_⟩
        intro b hb e he
        rw [List.eq_of_mem_replicate hb] at he
        exact absurd he (by simp))
    (by decide) (by decide) (by decide) (by decide)

/-- The entries of an optional table (NULL table has none). -/
def datEntriesOfOpt (hq : Option BatadvHashtable) : List DatEntry :=
  match hq with
  | none => []
  | some h => datEntriesOf h

/-- Claim C5: a purge with a predicate keeps exactly the entries on which
the predicate is false and removes every entry on which it is true; with no
predicate every entry is removed; instantiated with the staleness predicate
batadv_dat_to_purge, an entry strictly older than the timeout is removed
and an entry within the timeout is kept. -/
theorem C5_purge_exact :
    (∀ (h : BatadvHashtable) (p : DatEntry → Bool) (e : DatEntry),
      e ∈ datEntriesOfOpt (underscore_batadv_dat_purge (some h) (some p)) ↔
        e ∈ datEntriesOf h ∧ p e = false) ∧
    (∀ h : BatadvHashtable,
      datEntriesOfOpt (underscore_batadv_dat_purge (some h) none) = []) ∧
    (∀ (h : BatadvHashtable) (now timeout : Nat) (e : DatEntry),
      e ∈ datEntriesOf h →
      (e ∈ datEntriesOfOpt (underscore_batadv_dat_purge (some h)
          (some (batadv_dat_to_purge now timeout))) ↔
        now - e.last_update ≤ timeout)) := by
  have ha : ∀ (h : BatadvHashtable) (p : DatEntry → Bool) (e : DatEntry),
      e ∈ datEntriesOfOpt (underscore_batadv_dat_purge (some h) (some p)) ↔
        e ∈ datEntriesOf h ∧ p e = false := by
    intro h p e
    simp only [underscore_batadv_dat_purge, datEntriesOfOpt, datEntriesOf,
      List.mem_flatten, List.mem_map]
    constructor
    · rintro ⟨b, ⟨b0, hb0, rfl⟩, he⟩
      obtain ⟨he0, hp⟩ := List.mem_filter.mp he
      exact ⟨⟨b0, hb0, he0⟩, by simpa using hp⟩
    · rintro ⟨⟨b0, hb0, he⟩, hp⟩
      exact ⟨b0.filter (fun e => !p e), ⟨b0, hb0, rfl⟩,
        List.mem_filter.mpr ⟨he, by simp [hp]⟩⟩
  refine ⟨ha, ?_, ?_⟩
  · intro h
    simp [underscore_batadv_dat_purge, datEntriesOfOpt, datEntriesOf,
      List.eq_nil_iff_forall_not_mem, List.mem_flatten, List.mem_map]
  · intro h now timeout e he
    rw [ha h (batadv_dat_to_purge now timeout) e]
    simp only [he, true_and, batadv_dat_to_purge, batadv_has_timed_out,
      decide_eq_false_iff_not, Nat.not_lt]

/-- Claim C5 witness: on a concrete two-bucket table holding one stale and
one fresh entry, the staleness purge removes exactly the stale one. -/
theorem C5_witness :
    (({ ip := 1, mac_addr := [1, 1, 1, 1, 1, 1], last_update := 0,
        refcount := 1 } : DatEntry) ∈
      datEntriesOfOpt (underscore_batadv_dat_purge
        (some { size := 2, table :=
          [[{ ip := 1, mac_addr := [1, 1, 1, 1, 1, 1], last_update := 0,
              refcount := 1 }],
           [{ ip := 2, mac_addr := [2, 2, 2, 2, 2, 2], last_update := 160,
              refcount := 1 }]] })
        (some (batadv_dat_to_purge 200 50))) ↔ 200 - 0 ≤ 50) ∧
    (({ ip := 2, mac_addr := [2, 2, 2, 2, 2, 2], last_update := 160,
        refcount := 1 } : DatEntry) ∈
      datEntriesOfOpt (underscore_batadv_dat_purge
        (some { size := 2, table :=
          [[{ ip := 1, mac_addr := [1, 1, 1, 1, 1, 1], last_update := 0,
              refcount := 1 }],
           [{ ip := 2, mac_addr := [2, 2, 2, 2, 2, 2], last_update := 160,
              refcount := 1 }]] })
        (some (batadv_dat_to_purge 200 50))) ↔ 200 - 160 ≤ 50) ∧
    datEntriesOfOpt (underscore_batadv_dat_purge
      (some { size := 2, table :=
        [[{ ip := 1, mac_addr := [1, 1, 1, 1, 1, 1], last_update := 0,
            refcount := 1 }],
         [{ ip := 2, mac_addr := [2, 2, 2, 2, 2, 2], last_update := 160,
            refcount := 1 }]] }) none) = [] :=
  ⟨C5_purge_exact.2.2 _ 200 50 _ (by decide),
   C5_purge_exact.2.2 _ 200 50 _ (by decide),
   C5_purge_exact.2.1 _⟩

/-- Claim C7: a failed insertion is a silent no-op with atomic effect.  An
upsert of an unknown address under allocation exhaustion returns the table
unchanged; and when the freshly built entry (refcount 2) reaches hash_add
while an entry with the same address is already linked (a lost insertion
race), the table is returned exactly as it was and the fresh entry's
reference count is driven to 0 (both references dropped: it is freed and
discarded), so no duplicate or partially constructed entry is ever
reachable. -/
theorem C7_failed_insert_noop :
    (∀ (h : BatadvHashtable) (ip : Nat) (mac : List Nat) (now : Nat),
      (batadv_dat_entry_hash_find (some h) ip).1 = none →
      batadv_dat_entry_add h ip mac now false = h) ∧
    (∀ (h : BatadvHashtable) (fresh : DatEntry),
      fresh.refcount = 2 →
      (getBucket h fresh.ip).any
        (fun e => batadv_compare_dat e.ip fresh.ip) = true →
      datInsertPhase h fresh = (h, 0)) := by
  constructor
  · intro h ip mac now hfind
    unfold batadv_dat_entry_add
    rw [hfind]
    rfl
  · intro h fresh hrc hany
    simp [datInsertPhase, batadv_hash_add, hany, hrc]

/-- Claim C7 witness: allocation failure on an empty one-bucket table, and
a lost race against a linked entry with the same address. -/
theorem C7_witness :
    batadv_dat_entry_add { size := 1, table := [[]] } 5 [9, 9, 9, 9, 9, 9]
      7 false = { size := 1, table := [[]] } ∧
    datInsertPhase
      { size := 1, table :=
        [[{ ip := 5, mac_addr := [1, 1, 1, 1, 1, 1], last_update := 0,
            refcount := 1 }]] }
      { ip := 5, mac_addr := [9, 9, 9, 9, 9, 9], last_update := 7,
        refcount := 2 } =
      ({ size := 1, table :=
        [[{ ip := 5, mac_addr := [1, 1, 1, 1, 1, 1], last_update := 0,
            refcount := 1 }]] }, 0) :=
  ⟨C7_failed_insert_noop.1 _ 5 [9, 9, 9, 9, 9, 9] 7 (by decide),
   C7_failed_insert_noop.2 _ _ rfl (by decide)⟩

/-- Claim C8: a lookup never hands out a handle to an entry whose reference
count already reached zero.  Any entry the lookup returns matches the
searched address and carries a post-acquisition count of at least 2 (it was
nonzero and was incremented); and when every entry for the address in its
bucket has count zero (it is being freed concurrently), the lookup reports
not found. -/
theorem C8_lookup_refcount :
    (∀ (hq : Option BatadvHashtable) (ip : Nat) (e : DatEntry),
      (batadv_dat_entry_hash_find hq ip).1 = some e →
      e.ip = ip ∧ 2 ≤ e.refcount) ∧
    (∀ (h : BatadvHashtable) (ip : Nat),
      (∀ e ∈ getBucket h ip, e.ip = ip → e.refcount = 0) →
      (batadv_dat_entry_hash_find (some h) ip).1 = none) := by
  constructor
  · intro hq ip e hfind
    cases hq with
    | none => simp [batadv_dat_entry_hash_find] at hfind
    | some h =>
      rw [hash_find_fst] at hfind
      obtain ⟨hip, hrc, _⟩ := bucketAcquire_eq_some _ _ _ hfind
      exact ⟨hip, hrc⟩
  · intro h ip hall
    rw [hash_find_fst, bucketAcquire_eq_none]
    intro e he
    by_cases hip : e.ip = ip
    · simp [entryLive, hall e he hip, hip]
    · simp [entryLive, hip]

/-- Claim C8 witness: a bucket whose only entry for the address is being
freed (count zero) yields not found; with a live entry behind the dying
one, the lookup skips the dying entry and returns the live one with its
count bumped to 2. -/
theorem C8_witness :
    (({ ip := 5, mac_addr := [2, 2, 2, 2, 2, 2], last_update := 3,
        refcount := 2 } : DatEntry).ip = 5 ∧
      2 ≤ ({ ip := 5, mac_addr := [2, 2, 2, 2, 2, 2], last_update := 3,
             refcount := 2 } : DatEntry).refcount) ∧
    (batadv_dat_entry_hash_find
      (some { size := 1, table :=
        [[{ ip := 5, mac_addr := [1, 1, 1, 1, 1, 1], last_update := 0,
            refcount := 0 }]] }) 5).1 = none :=
  ⟨C8_lookup_refcount.1
    (some { size := 1, table :=
      [[{ ip := 5, mac_addr := [1, 1, 1, 1, 1, 1], last_update := 0,
          refcount := 0 },
        { ip := 5, mac_addr := [2, 2, 2, 2, 2, 2], last_update := 3,
          refcount := 1 }]] }) 5 _ (by decide),
   C8_lookup_refcount.2 _ 5 (by decide)⟩

theorem sendFold_ret_iff (router : OrigNode → Option NeighNode)
    (prep xm : Nat → Bool) :
    ∀ (l : List (Nat × Candidate)) (acc : Bool × SendLog),
      (acc.1 = true ↔ acc.2.accepted ≠ []) →
      ((List.foldl (sendStep router prep xm) acc l).1 = true ↔
        (List.foldl (sendStep router prep xm) acc l).2.accepted ≠ []) := by
  intro l
  induction l with
  | nil => intro acc h; exact h
  | cons p ps ih =>
    intro acc h
    rw [List.foldl_cons]
    apply ih
    obtain ⟨i, c⟩ := p
    cases c with
    | notFound => exact h
    | found n =>
      cases hr : router n with
      | none => simpa [sendStep, hr] using h
      | some nn =>
        by_cases hp : prep i
        · by_cases hx : xm i
          · simp [sendStep, hr, hp, hx]
          · simpa [sendStep, hr, hp, hx] using h
        · simpa [sendStep, hr, hp] using h

theorem sendFold_notFound (router : OrigNode → Option NeighNode)
    (prep xm : Nat → Bool) :
    ∀ (l : List (Nat × Candidate)) (acc : Bool × SendLog),
      (∀ p ∈ l, p.2 = Candidate.notFound) →
      List.foldl (sendStep router prep xm) acc l = acc := by
  intro l
  induction l with
  | nil => intro acc _; rfl
  | cons p ps ih =>
    intro acc hall
    rw [List.foldl_cons]
    have hstep : sendStep router prep xm acc p = acc := by
      obtain ⟨i, c⟩ := p
      have hp : c = Candidate.notFound := hall (i, c) (List.mem_cons_self _ _)
      subst hp
      rfl
    rw [hstep]
    exact ih acc (fun q hq => hall q (List.mem_cons_of_mem p hq))

/-- Claim C6: the Disseminator returns true exactly when at least one
per-candidate transmission was accepted by the transport, and in the
degenerate cases (no originator registry, candidate-array allocation
failure, empty registry, or a candidate array with every slot NOT_FOUND)
it returns false with an empty side-effect log: no payload is handed to
the transport and no reference-count traffic happens. -/
theorem C6_send_result :
    (∀ (oh : Option (List OrigNode)) (alloc : Bool) (ip : List Nat)
      (router : OrigNode → Option NeighNode) (prep xm : Nat → Bool)
      (ret : Bool) (log : SendLog),
      batadv_dat_send_data oh alloc ip router prep xm = some (ret, log) →
      (ret = true ↔ log.accepted ≠ [])) ∧
    (∀ (ip : List Nat) (router : OrigNode → Option NeighNode)
      (prep xm : Nat → Bool),
      batadv_dat_send_data none true ip router prep xm =
        some (false, emptySendLog)) ∧
    (∀ (reg : List OrigNode) (ip : List Nat)
      (router : OrigNode → Option NeighNode) (prep xm : Nat → Bool),
      batadv_dat_send_data (some reg) false ip router prep xm =
        some (false, emptySendLog)) ∧
    (∀ (ip : List Nat) (router : OrigNode → Option NeighNode)
      (prep xm : Nat → Bool),
      batadv_dat_send_data (some []) true ip router prep xm =
        some (false, emptySendLog)) ∧
    (∀ (oh : Option (List OrigNode)) (alloc : Bool) (ip : List Nat)
      (router : OrigNode → Option NeighNode) (prep xm : Nat → Bool)
      (cands : List Candidate),
      batadv_dat_select_candidates oh alloc ip = SelectResult.ok cands →
      (∀ c ∈ cands, c = Candidate.notFound) →
      batadv_dat_send_data oh alloc ip router prep xm =
        some (false, emptySendLog)) := by
  refine ⟨?_, fun ip router prep xm => rfl, fun reg ip router prep xm => rfl,
    fun ip router prep xm => rfl, ?_⟩
  · intro oh alloc ip router prep xm ret log h
    unfold batadv_dat_send_data at h
    split at h
    · obtain ⟨h1, h2⟩ := Prod.mk.injEq _ _ _ _ ▸ Option.some.inj h
      rw [← h1, ← h2]
      simp [emptySendLog]
    · exact absurd h (by simp)
    · rename_i cands hsel
      have hfold := sendFold_ret_iff router prep xm cands.enum
        (false, emptySendLog) (by simp [emptySendLog])
      have heq := Option.some.inj h
      rw [heq] at hfold
      exact hfold
  · intro oh alloc ip router prep xm cands hsel hall
    unfold batadv_dat_send_data
    rw [hsel]
    show some (List.foldl (sendStep router prep xm) (false, emptySendLog)
      cands.enum) = some (false, emptySendLog)
    rw [sendFold_notFound router prep xm cands.enum (false, emptySendLog)
      (fun p hp => hall p.2 (mem_enumFrom_snd cands 0 p hp))]

/-- Claim C6 witness: a single-candidate send whose transmission is
accepted returns true, with the accepted-transmission log nonempty. -/
theorem C6_witness :
    (true = true ↔
      ({ attempted := [0], accepted := [0],
         released_orig :=
           [{ orig := [7, 7, 7, 7, 7, 7], dat_addr := 2386459755 }],
         acquired_neigh := [{ addr := [9, 9, 9, 9, 9, 9] }],
         released_neigh := [{ addr := [9, 9, 9, 9, 9, 9] }] } :
        SendLog).accepted ≠ []) :=
  C6_send_result.1
    (some [{ orig := [7, 7, 7, 7, 7, 7], dat_addr := 2386459755 }]) true
    [1, 2, 3, 4] (fun _ => some { addr := [9, 9, 9, 9, 9, 9] })
    (fun _ => true) (fun _ => true) true
    { attempted := [0], accepted := [0],
      released_orig :=
        [{ orig := [7, 7, 7, 7, 7, 7], dat_addr := 2386459755 }],
      acquired_neigh := [{ addr := [9, 9, 9, 9, 9, 9] }],
      released_neigh := [{ addr := [9, 9, 9, 9, 9, 9] }] }
    (by decide)

theorem foundNodes_cons (a : Candidate) (l : List Candidate) :
    foundNodes (a :: l) = foundNodes [a] ++ foundNodes l := by
  cases a <;> simp [foundNodes]

theorem sendStep_refs (router : OrigNode → Option NeighNode)
    (prep xm : Nat → Bool) (acc : Bool × SendLog) (p : Nat × Candidate) :
    ∃ d : List NeighNode,
      (sendStep router prep xm acc p).2.released_orig =
        acc.2.released_orig ++ foundNodes [p.2] ∧
      (sendStep router prep xm acc p).2.acquired_neigh =
        acc.2.acquired_neigh ++ d ∧
      (sendStep router prep xm acc p).2.released_neigh =
        acc.2.released_neigh ++ d := by
  obtain ⟨i, c⟩ := p
  cases c with
  | notFound =>
    exact ⟨[], by simp [sendStep, foundNodes], by simp [sendStep],
      by simp [sendStep]⟩
  | found n =>
    cases hr : router n with
    | none =>
      refine ⟨[], ?_, ?_, ?_⟩ <;> simp [sendStep, hr, foundNodes]
    | some nn =>
      by_cases hp : prep i
      · refine ⟨[nn], ?_, ?_, ?_⟩ <;> simp [sendStep, hr, hp, foundNodes]
      · refine ⟨[nn], ?_, ?_, ?_⟩ <;> simp [sendStep, hr, hp, foundNodes]

theorem sendFold_refs (router : OrigNode → Option NeighNode)
    (prep xm : Nat → Bool) :
    ∀ (l : List (Nat × Candidate)) (acc : Bool × SendLog),
      ∃ d : List NeighNode,
        (List.foldl (sendStep router prep xm) acc l).2.released_orig =
          acc.2.released_orig ++ foundNodes (l.map Prod.snd) ∧
        (List.foldl (sendStep router prep xm) acc l).2.acquired_neigh =
          acc.2.acquired_neigh ++ d ∧
        (List.foldl (sendStep router prep xm) acc l).2.released_neigh =
          acc.2.released_neigh ++ d := by
  intro l
  induction l with
  | nil => intro acc; exact ⟨[], by simp [foundNodes], by simp, by simp⟩
  | cons p ps ih =>
    intro acc
    obtain ⟨d0, h1, h2, h3⟩ := sendStep_refs router prep xm acc p
    obtain ⟨d, g1, g2, g3⟩ := ih (sendStep router prep xm acc p)
    refine ⟨d0 ++ d, ?_, ?_, ?_⟩
    · rw [List.foldl_cons, g1, h1, List.map_cons,
        show foundNodes (p.2 :: List.map Prod.snd ps) =
          foundNodes [p.2] ++ foundNodes (List.map Prod.snd ps) from
          foundNodes_cons _ _,
        List.append_assoc]
    · rw [List.foldl_cons, g2, h2, List.append_assoc]
    · rw [List.foldl_cons, g3, h3, List.append_assoc]

/-- Claim C9: whenever candidate selection completes, the send loop
completes as well (every per-candidate failure is non-fatal), it releases
exactly one originator reference for every Found candidate — in slot
order, so a failure at one candidate never suppresses the processing and
release of the remaining candidates — and it releases every next-hop
neighbour reference it acquired. -/
theorem C9_per_candidate_isolation :
    ∀ (oh : Option (List OrigNode)) (alloc : Bool) (ip : List Nat)
      (router : OrigNode → Option NeighNode) (prep xm : Nat → Bool)
      (cands : List Candidate),
      batadv_dat_select_candidates oh alloc ip = SelectResult.ok cands →
      ∃ ret log,
        batadv_dat_send_data oh alloc ip router prep xm =
          some (ret, log) ∧
        log.released_orig = foundNodes cands ∧
        log.released_neigh = log.acquired_neigh := by
  intro oh alloc ip router prep xm cands hsel
  unfold batadv_dat_send_data
  rw [hsel]
  obtain ⟨d, h1, h2, h3⟩ :=
    sendFold_refs router prep xm cands.enum (false, emptySendLog)
  refine ⟨_, _, rfl, ?_, ?_⟩
  · rw [h1, List.enum_map_snd]
    simp [emptySendLog]
  · rw [h2, h3]
    rfl

/-- Claim C9 witness: a one-candidate send whose next-hop resolution fails
still releases the candidate's originator reference and acquires no
neighbour reference. -/
theorem C9_witness :
    ∃ ret log,
      batadv_dat_send_data
          (some [{ orig := [7, 7, 7, 7, 7, 7], dat_addr := 2386459755 }])
          true [1, 2, 3, 4] (fun _ => none) (fun _ => true)
          (fun _ => true) =
        some (ret, log) ∧
      log.released_orig = foundNodes
        [Candidate.found { orig := [7, 7, 7, 7, 7, 7], dat_addr := 2386459755 },
         Candidate.notFound, Candidate.notFound] ∧
      log.released_neigh = log.acquired_neigh :=
  C9_per_candidate_isolation
    (some [{ orig := [7, 7, 7, 7, 7, 7], dat_addr := 2386459755 }]) true
    [1, 2, 3, 4] (fun _ => none) (fun _ => true) (fun _ => true)
    [Candidate.found { orig := [7, 7, 7, 7, 7, 7], dat_addr := 2386459755 },
     Candidate.notFound, Candidate.notFound] (by decide)
